import Mathlib

/-!
Shallow embedding of `src/2019/Kopek_Constraint_Satisfaction/ff_and_propagate/csp_yield.py`:
a generic constraint-satisfaction solver with backtracking search, optional
constraint propagation (forward checking) and variable-selection heuristics.

Python dictionaries are modelled as association lists (`List (V × α)`), which
preserves the insertion order that Python dict iteration follows.  Python sets
of domain values are modelled as `List D` in their stored order.  Exceptions
are modelled with `Except` / an explicit error component.  The generator
(`yield`) semantics of `backtracking_search` is modelled as the list of
assignments yielded, in yield order.

The progress-printing instrumentation of the source (`low_mark`, `count`, the
`print` call on lines 62-68) only writes to stdout and to counters that are
never read by the solving logic; it does not influence which assignments are
yielded or their order, so it is not part of the embedded state.
-/

set_option autoImplicit false

namespace CspYield

variable {V D : Type}

/-- First-match lookup in an association list: the value stored under key `v`,
modelling Python `dict.__getitem__` / `in` on dict keys. -/
def alookup [DecidableEq V] {α : Type} : List (V × α) → V → Option α
  | [], _ => none
  | (k, a) :: rest, v => if v = k then some a else alookup rest v

/-- Store `a` under key `k`: replace the value at the first occurrence of `k`,
keeping its position, or append a new entry — Python `dict.__setitem__`. -/
def dictSet [DecidableEq V] {α : Type} : List (V × α) → V → α → List (V × α)
  | [], k, a => [(k, a)]
  | (k', b) :: rest, k, a =>
      if k = k' then (k', a) :: rest else (k', b) :: dictSet rest k a

/-- Remove the first entry stored under key `k`, modelling Python `dict.pop`. -/
def removeKey [DecidableEq V] {α : Type} : List (V × α) → V → List (V × α)
  | [], _ => []
  | (k', b) :: rest, k => if k' = k then rest else (k', b) :: removeKey rest k

/-- A partial assignment: Python `Dict[V, D]`, insertion-ordered. -/
abbrev Assignment (V D : Type) := List (V × D)

/-- A snapshot of the unassigned variables' candidate domains:
Python `Dict[V, Set[D]]`. -/
abbrev UDoms (V D : Type) := List (V × List D)

/-- Modelled from the spec: the abstract `Constraint` base class of the `csp`
module, which is not part of the repository snapshot (only its caller
`csp_yield.py` is).  Per §4.3 a constraint carries a fixed list of variables,
a satisfaction predicate over (possibly partial) assignments, and a
propagation rule `propagate changed_variable changed_value unassigned_domains`
returning the pruned snapshot, or `none` when some domain would become empty
(the branch-pruning signal the engine's comment on line 78 describes). -/
structure Constraint (V D : Type) where
  vars : List V
  satisfied : Assignment V D → Bool
  propagate : V → D → UDoms V D → Option (UDoms V D)

/-- Modelled from the spec: the `search_strategy` option of §6 — `ff` is the
fail-first heuristic (the source's default `'ff'`), `natural` assigns the
first unassigned variable in original order. -/
inductive SearchStrategy
  | ff
  | natural
deriving DecidableEq, Repr

/-- The keyword options of `backtracking_search` (source lines 51-54), in
order: `search_strategy`, `propagate_constraints`, `order_domain`,
`check_constraints`. -/
structure Config where
  searchStrategy : SearchStrategy
  propagateConstraints : Bool
  orderDomain : Bool
  checkConstraints : Bool
deriving DecidableEq, Repr

/-- The defaults of the source: `search_strategy='ff'`,
`propagate_constraints=True`, `order_domain=True`, `check_constraints=False`. -/
def defaultConfig : Config := ⟨.ff, true, true, false⟩

/-- The error taxonomy of §7.  The source raises `LookupError` with distinct
messages for the two situations; the spec names them `MissingDomainError` and
`UnknownVariableError`. -/
inductive CspError
  | missingDomain
  | unknownVariable
deriving DecidableEq, Repr

/-- The CSP aggregate (source lines 31-36): the variable list, the initial
domain of each variable, and the per-variable constraint lists. -/
structure CSP (V D : Type) where
  vars : List V
  domains : UDoms V D
  constraints : List (V × List (Constraint V D))

/-- The constructor loop of `CSP.__init__` (source lines 37-40): for each
variable, first create its empty constraint list, then raise if the variable
has no domain entry.  `acc` is the constraint dictionary built so far. -/
def initLoop [DecidableEq V] (domains : UDoms V D) :
    List V → List (V × List (Constraint V D)) →
    Except CspError (List (V × List (Constraint V D)))
  | [], acc => .ok acc
  | v :: vs, acc =>
      let acc' := dictSet acc v []
      if (alookup domains v).isSome then initLoop domains vs acc'
      else .error .missingDomain

/-- `CSP.__init__` (source lines 31-40): store the variable list and domain
map, and build the per-variable constraint lists, failing with
`missingDomain` when some variable has no domain entry. -/
def CSP.init [DecidableEq V] (vars : List V) (domains : UDoms V D) :
    Except CspError (CSP V D) :=
  (initLoop domains vars []).map fun cs => ⟨vars, domains, cs⟩

/-- The loop of `add_constraint` (source lines 43-47): for each variable the
constraint references, raise if it is not a CSP variable, otherwise append
the constraint to that variable's list.  The source mutates `self.constraints`
as it goes, so the state reached when the exception is raised is returned
alongside the error. -/
def addConstraintLoop [DecidableEq V] (c : Constraint V D) :
    List V → CSP V D → CSP V D × Option CspError
  | [], csp => (csp, none)
  | v :: vs, csp =>
      if v ∈ csp.vars then
        addConstraintLoop c vs
          { csp with
            constraints :=
              dictSet csp.constraints v (((alookup csp.constraints v).getD []) ++ [c]) }
      else (csp, some .unknownVariable)

/-- `CSP.add_constraint` (source lines 42-47).  The first component is the
CSP state after the call (also when it raised); the second is the raised
error, if any. -/
def CSP.addConstraint [DecidableEq V] (csp : CSP V D) (c : Constraint V D) :
    CSP V D × Option CspError :=
  addConstraintLoop c c.vars csp

/-- The effect of registering `c` under each variable of a list in turn, used
to characterise what `add_constraint` has done when it stops (either at the
end of `c.variables` or at the first unknown variable). -/
def registerAll [DecidableEq V] (c : Constraint V D) :
    List V → List (V × List (Constraint V D)) → List (V × List (Constraint V D))
  | [], cs => cs
  | v :: vs, cs => registerAll c vs (dictSet cs v (((alookup cs v).getD []) ++ [c]))

/-- `CSP.consistent` (source lines 95-99): all constraints attached to
`variable` are satisfied by `assignment`.  (After `__init__`, every CSP
variable is a key of `constraints`, so the `getD []` default is never taken
on the source's inputs.) -/
def CSP.consistent [DecidableEq V] (csp : CSP V D) (v : V)
    (assignment : Assignment V D) : Bool :=
  ((alookup csp.constraints v).getD []).all fun c => c.satisfied assignment

/-- Python truthiness of the `unassigned` value on lines 57 and 81: `None`
and the empty dict are falsy, a non-empty dict is truthy. -/
def truthy {α : Type} : Option (List α) → Bool
  | none => false
  | some l => !l.isEmpty

/-- Modelled from the spec: `select_next_var` of the missing `csp` module
(§4.2).  Under `ff` it picks the unassigned variable with the smallest
remaining domain, ties broken by map order; otherwise the first unassigned
variable in map order.  It returns the chosen variable, its candidate values,
and the unassigned map without that variable — per the §3 invariant that a
variable is never simultaneously assigned and in the unassigned snapshot.
§4.2 only requires the value ordering to be deterministic for a fixed
snapshot, so the `order_domain` heuristic is modelled as the stored order. -/
def select_next_var [DecidableEq V] (strategy : SearchStrategy)
    (_orderDomain : Bool) (hd : V × List D) (tl : UDoms V D) :
    (V × List D) × UDoms V D :=
  match strategy with
  | .natural => (hd, tl)
  | .ff =>
      let best := tl.foldl (fun b p => if p.2.length < b.2.length then p else b) hd
      (best, removeKey (hd :: tl) best.1)

/-- The propagation chain of source lines 76-79: fold the selected variable's
constraints, in registration order, over the domain snapshot.  Modelled from
the spec: once some `propagate` has returned the absent snapshot the chain
stays absent (concrete constraints' behaviour on an absent snapshot is not
defined by §4.3; the prune decision is the same either way). -/
def propagChain (cs : List (Constraint V D)) (nv : V) (value : D)
    (u : UDoms V D) : Option (UDoms V D) :=
  cs.foldl (fun acc c => acc.bind fun m => c.propagate nv value m) (some u)

/-- The `next_unassigned` computed for one candidate value (source lines
75-79): the post-selection snapshot, pruned by the propagation chain when
`propagate_constraints` is set. -/
def nextUnassigned [DecidableEq V] (csp : CSP V D) (cfg : Config) (nv : V)
    (value : D) (rest : UDoms V D) : Option (UDoms V D) :=
  if cfg.propagateConstraints then
    propagChain ((alookup csp.constraints nv).getD []) nv value rest
  else some rest

/-- `CSP.backtracking_search` (source lines 50-90), with an explicit fuel
bounding the recursion depth.  When no variables remain unassigned (Python:
`if not unassigned`, falsy for both `None` and the empty dict) the current
assignment is yielded.  Otherwise, for each candidate value of the selected
variable, the assignment is extended on a fresh copy, the snapshot is pruned,
and the guard of line 81 — `next_unassigned and not check_constraints or
self.consistent(next_var, extended_assignment)`, i.e. with Python precedence
`(truthy next_unassigned && !check_constraints) || consistent` — decides
whether to recurse; all solutions of the recursive call are relayed (the
source's `if result is not None` filter never fires, as only dictionaries are
yielded).  The fuel case `0` is unreachable whenever propagation never grows
the snapshot (theorem `c9_fuel_number_of_variables_suffices`). -/
def searchAux [DecidableEq V] (csp : CSP V D) (cfg : Config) :
    Nat → Assignment V D → Option (UDoms V D) → List (Assignment V D)
  | _, assignment, none => [assignment]
  | _, assignment, some [] => [assignment]
  | 0, _, some (_ :: _) => []
  | fuel + 1, assignment, some (hd :: tl) =>
      match select_next_var cfg.searchStrategy cfg.orderDomain hd tl with
      | ((nv, dom), rest) =>
          (dom.map fun value =>
            if (truthy (nextUnassigned csp cfg nv value rest)
                  && !cfg.checkConstraints)
                || csp.consistent nv (dictSet assignment nv value) then
              searchAux csp cfg fuel (dictSet assignment nv value)
                (nextUnassigned csp cfg nv value rest)
            else []).flatten

/-- A search invocation: `backtracking_search(assignment, unassigned, ...)`
started on a present snapshot, with fuel the number of unassigned variables
(the recursion depth bound of §5). -/
def CSP.search [DecidableEq V] (csp : CSP V D) (assignment : Assignment V D)
    (unassigned : UDoms V D) (cfg : Config) : List (Assignment V D) :=
  searchAux csp cfg unassigned.length assignment (some unassigned)

/-- Depth measure of a snapshot argument: number of unassigned variables,
zero for the absent snapshot. -/
def uLen {α : Type} : Option (List α) → Nat
  | none => 0
  | some l => l.length

/-- Modelled from the spec: a concrete binary inequality constraint
("A ≠ B", §8's examples), a caller-supplied `Constraint` conforming to §4.3:
`satisfied` treats an unassigned variable as unconstrained; `propagate`
removes the just-assigned value from the other variable's domain and signals
the branch-pruning case with `none` when that domain becomes empty. -/
def neq [DecidableEq V] [DecidableEq D] (x y : V) : Constraint V D where
  vars := [x, y]
  satisfied := fun asg =>
    match alookup asg x, alookup asg y with
    | some a, some b => decide (a ≠ b)
    | _, _ => true
  propagate := fun changed value u =>
    let other := if changed = x then y else x
    match alookup u other with
    | none => some u
    | some dom =>
        let dom' := dom.filter fun d => decide (d ≠ value)
        if dom'.isEmpty then none else some (dictSet u other dom')


/-! ### Concrete instances used by the claims' examples -/

/-- The spec's unsatisfiable example (§8): variables `A`, `B`, domains
`{A: {1}, B: {1}}`, constraint `A ≠ B`, built through `CSP.init` and
`add_constraint` (both succeed on this input). -/
def cspAB : CSP String Nat :=
  match CSP.init ["A", "B"] [("A", [1]), ("B", [1])] with
  | .ok c => (c.addConstraint (neq "A" "B")).1
  | .error _ => ⟨[], [], []⟩

/-- Variables `A`, `B`, `C`, all domains `{1}`, constraint `A ≠ B`;
variable `C` is unconstrained. -/
def cspABC : CSP String Nat :=
  match CSP.init ["A", "B", "C"] [("A", [1]), ("B", [1]), ("C", [1])] with
  | .ok c => (c.addConstraint (neq "A" "B")).1
  | .error _ => ⟨[], [], []⟩

/-- A constraint-free CSP over one variable, used as a trivial instance. -/
def cspFree : CSP String Nat := ⟨["A"], [("A", [1])], [("A", [])]⟩

/-- The CSP of the empty-domain construction: one variable whose domain
entry is present but empty. -/
def cspEmptyDom : CSP String Nat :=
  match CSP.init ["A"] [("A", [])] with
  | .ok c => c
  | .error _ => ⟨[], [], []⟩

/-! ### Claims settled by direct evaluation -/

/-- C1: the claim fails on the code — this is the line-81 precedence slip the
spec's §9 flags as unintentional.  On the CSP `{A, B}` with domains
`{A: {1}, B: {1}}` and constraint `A ≠ B` (constructed without error), the
search started from the empty assignment and the full initial domain map
under the source's default configuration emits the assignment `{A ↦ 1}`,
which gives no value to variable `B`: not every emitted solution assigns
every variable of the CSP. -/
theorem c1_search_emits_partial_assignment :
    cspAB.search [] cspAB.domains defaultConfig = [[("A", 1)]] ∧
    cspAB.vars = ["A", "B"] ∧
    alookup ([("A", 1)] : Assignment String Nat) "B" = none := by
  refine ⟨rfl, rfl, rfl⟩

/-- C2: the claim fails on the code (the line-81 precedence slip).  On the
`{A, B}` example, the propagation chain for candidate `A ↦ 1` yields the
absent snapshot (`none`, i.e. a domain became empty), yet with
`check_constraints = true` the branch is not pruned: it recurses and emits a
solution, because the guard `next_unassigned and not check_constraints or
consistent(...)` evaluates `consistent` alone. -/
theorem c2_empty_propagation_not_pruned :
    propagChain ((alookup cspAB.constraints "A").getD []) "A" 1 [("B", [1])]
      = none ∧
    cspAB.search [] cspAB.domains ⟨.ff, true, true, true⟩ = [[("A", 1)]] := by
  refine ⟨rfl, rfl⟩

/-- C3: the claim fails on the code (the line-81 precedence slip).  The
spec's own unsatisfiable example — variables `{A, B}`, domains
`{A: {1}, B: {1}}`, constraint `A ≠ B` — does not produce the empty solution
sequence under the default configuration (propagation on): the partial
assignment `{A ↦ 1}` is emitted. -/
theorem c3_unsat_example_emits_solution :
    cspAB.search [] cspAB.domains defaultConfig ≠ [] := by
  intro h
  exact absurd (congrArg List.length h) (by decide)

/-- C7: counterexample to atomicity of a failed registration.  Registering
`A ≠ C` on the CSP over `{A, B}` raises `UnknownVariableError`, yet the
constraint has already been appended to `A`'s constraint list: the
per-variable constraint lists are not as they were before the call. -/
theorem c7_counterexample_partial_registration :
    (cspFree.addConstraint (neq "A" "C")).2 = some CspError.unknownVariable ∧
    ((alookup cspFree.constraints "A").getD []).length = 0 ∧
    ((alookup (cspFree.addConstraint (neq "A" "C")).1.constraints "A").getD []).length = 1 := by
  refine ⟨rfl, rfl, rfl⟩

/-- C4 counterexample: with propagation disabled and `check_constraints`
disabled, the search on variables `{A, B, C}` (domains all `{1}`, constraint
`A ≠ B`) emits the complete assignment `{A ↦ 1, B ↦ 1, C ↦ 1}` even though
`is_consistent` fails for variable `A` on it — the constraint `A ≠ B` is
violated.  (`neq` conforms to the §4.3 contract; the guard of line 81 only
consults `consistent` for the variable selected last.) -/
theorem c4_counterexample_inconsistent_solution :
    cspABC.search [] cspABC.domains ⟨.natural, false, true, false⟩
      = [[("A", 1), ("B", 1), ("C", 1)]] ∧
    cspABC.consistent "A" [("A", 1), ("B", 1), ("C", 1)] = false := by
  refine ⟨rfl, rfl⟩

/-- C10: construction does not check that domains are non-empty — a variable
whose domain entry is present but empty is accepted — and the search started
from that domain map emits no solution at all. -/
theorem c10_empty_domain_construction_ok :
    (CSP.init ["A"] [("A", ([] : List Nat))]).isOk = true ∧
    cspEmptyDom.search [] cspEmptyDom.domains defaultConfig = [] := by
  refine ⟨rfl, rfl⟩

/-- The spec's satisfiable example (§8): domains `{A: {1,2}, B: {1,2}}`,
constraint `A ≠ B`. -/
def cspAB2 : CSP String Nat :=
  match CSP.init ["A", "B"] [("A", [1, 2]), ("B", [1, 2])] with
  | .ok c => (c.addConstraint (neq "A" "B")).1
  | .error _ => ⟨[], [], []⟩

/-! ### Association-list lemmas -/

theorem alookup_dictSet_self [DecidableEq V] {α : Type} (m : List (V × α))
    (k : V) (a : α) : alookup (dictSet m k a) k = some a := by
  induction m with
  | nil => simp [dictSet, alookup]
  | cons p rest ih =>
      obtain ⟨k', b⟩ := p
      by_cases h : k = k'
      · subst h; simp [dictSet, alookup]
      · simp [dictSet, alookup, h, ih]

theorem alookup_dictSet_ne [DecidableEq V] {α : Type} (m : List (V × α))
    {k v : V} (a : α) (h : v ≠ k) :
    alookup (dictSet m k a) v = alookup m v := by
  induction m with
  | nil => simp [dictSet, alookup, h]
  | cons p rest ih =>
      obtain ⟨k', b⟩ := p
      by_cases hk : k = k'
      · subst hk
        simp [dictSet, alookup, h]
      · by_cases hv : v = k'
        · subst hv; simp [dictSet, alookup, hk]
        · simp [dictSet, alookup, hk, hv, ih]

/-! ### C5: construction failure iff a variable lacks a domain entry -/

theorem initLoop_isOk_iff [DecidableEq V] (doms : UDoms V D) (vs : List V) :
    ∀ acc, (initLoop (D := D) doms vs acc).isOk = true ↔
      ∀ v ∈ vs, (alookup doms v).isSome = true := by
  induction vs with
  | nil => intro acc; simp [initLoop, Except.isOk, Except.toBool]
  | cons v vs ih =>
      intro acc
      by_cases h : (alookup doms v).isSome = true
      · simp [initLoop, h, ih]
      · simp [initLoop, h, Except.isOk, Except.toBool]

theorem initLoop_error_iff [DecidableEq V] (doms : UDoms V D) (vs : List V) :
    ∀ acc, initLoop (D := D) doms vs acc = .error .missingDomain ↔
      ∃ v ∈ vs, alookup doms v = none := by
  induction vs with
  | nil => intro acc; simp [initLoop]
  | cons v vs ih =>
      intro acc
      by_cases h : (alookup doms v).isSome = true
      · have h' : ¬ alookup doms v = none := by
          intro hn; rw [hn] at h; simp at h
        simp [initLoop, h, ih, h']
      · have h' : alookup doms v = none := by
          cases hv : alookup doms v with
          | none => rfl
          | some d => rw [hv] at h; simp at h
        simp [initLoop, h, h']

/-- C5: `CSP.init` fails with `missingDomain` exactly when some variable of
the supplied list has no entry in the supplied domain map, and succeeds
exactly when every variable has one. -/
theorem c5_init_missing_domain_iff [DecidableEq V] (vs : List V)
    (doms : UDoms V D) :
    (CSP.init (D := D) vs doms = .error .missingDomain ↔
      ∃ v ∈ vs, alookup doms v = none) ∧
    ((CSP.init (D := D) vs doms).isOk = true ↔
      ∀ v ∈ vs, (alookup doms v).isSome = true) := by
  constructor
  · rw [← initLoop_error_iff doms vs []]
    unfold CSP.init
    cases initLoop (D := D) doms vs [] <;> simp [Except.map]
  · rw [← initLoop_isOk_iff doms vs []]
    unfold CSP.init
    cases initLoop (D := D) doms vs [] <;>
      simp [Except.map, Except.isOk, Except.toBool]

/-! ### C6 and C7: constraint registration -/

theorem addConstraintLoop_fst_vars [DecidableEq V] (c : Constraint V D)
    (vs : List V) : ∀ csp : CSP V D,
    (addConstraintLoop c vs csp).1.vars = csp.vars := by
  induction vs with
  | nil => intro csp; rfl
  | cons v vs ih =>
      intro csp
      by_cases h : v ∈ csp.vars <;> simp [addConstraintLoop, h, ih]

theorem addConstraintLoop_error_iff [DecidableEq V] (c : Constraint V D)
    (vs : List V) : ∀ csp : CSP V D,
    ((addConstraintLoop c vs csp).2 = some CspError.unknownVariable ↔
      ∃ v ∈ vs, v ∉ csp.vars) := by
  induction vs with
  | nil => intro csp; simp [addConstraintLoop]
  | cons v vs ih =>
      intro csp
      by_cases h : v ∈ csp.vars
      · simp [addConstraintLoop, h, ih]
      · simp [addConstraintLoop, h]

theorem addConstraintLoop_mem_mono [DecidableEq V] (c : Constraint V D)
    (vs : List V) : ∀ (csp : CSP V D) (w : V),
    c ∈ (alookup csp.constraints w).getD [] →
    c ∈ (alookup (addConstraintLoop c vs csp).1.constraints w).getD [] := by
  induction vs with
  | nil => intro csp w h; exact h
  | cons v vs ih =>
      intro csp w h
      by_cases hv : v ∈ csp.vars
      · simp only [addConstraintLoop, hv, if_pos]
        apply ih
        by_cases hw : w = v
        · subst hw
          simp only [alookup_dictSet_self]
          exact List.mem_append_left _ h
        · simpa [alookup_dictSet_ne _ _ hw] using h
      · simpa [addConstraintLoop, hv] using h

theorem addConstraintLoop_mem [DecidableEq V] (c : Constraint V D)
    (vs : List V) : ∀ csp : CSP V D, (∀ v ∈ vs, v ∈ csp.vars) →
    ∀ v ∈ vs, c ∈ (alookup (addConstraintLoop c vs csp).1.constraints v).getD [] := by
  induction vs with
  | nil => intro csp _ v hv; simp at hv
  | cons v vs ih =>
      intro csp hall w hw
      have hv : v ∈ csp.vars := hall v (List.mem_cons_self v vs)
      simp only [addConstraintLoop, hv, if_pos]
      rcases List.mem_cons.mp hw with hwv | hwvs
      · subst hwv
        apply addConstraintLoop_mem_mono
        simp only [alookup_dictSet_self]
        exact List.mem_append_right _ (List.mem_singleton_self c)
      · refine ih _ ?_ w hwvs
        intro x hx
        exact hall x (List.mem_cons_of_mem _ hx)

/-- C6: `add_constraint` raises `UnknownVariableError` exactly when the
constraint references a variable that is not among the CSP's variables; when
all referenced variables are known, the constraint ends up registered in the
constraint list of every variable it references. -/
theorem c6_add_constraint_unknown_variable_iff [DecidableEq V]
    (csp : CSP V D) (c : Constraint V D) :
    ((csp.addConstraint c).2 = some CspError.unknownVariable ↔
      ∃ v ∈ c.vars, v ∉ csp.vars) ∧
    ((∀ v ∈ c.vars, v ∈ csp.vars) →
      ∀ v ∈ c.vars,
        c ∈ (alookup (csp.addConstraint c).1.constraints v).getD []) :=
  ⟨addConstraintLoop_error_iff c c.vars csp, addConstraintLoop_mem c c.vars csp⟩

/-- A CSP over `{A, B}` with empty constraint lists, as `CSP.init` builds
them, used as a concrete registration target. -/
def cspABbase : CSP String Nat :=
  ⟨["A", "B"], [("A", [1]), ("B", [1])], [("A", []), ("B", [])]⟩

/-- Witness for C6: registering `A ≠ B` on the CSP over `{A, B}` — all
referenced variables are known, and the constraint is registered for both. -/
theorem c6_add_constraint_unknown_variable_iff_witness :
    (∀ v ∈ (neq (D := Nat) "A" "B").vars, v ∈ cspABbase.vars) ∧
    ∀ v ∈ (neq (D := Nat) "A" "B").vars,
      neq "A" "B" ∈
        (alookup (cspABbase.addConstraint (neq "A" "B")).1.constraints v).getD [] := by
  have h : ∀ v ∈ (neq (D := Nat) "A" "B").vars, v ∈ cspABbase.vars := by decide
  exact ⟨h, (c6_add_constraint_unknown_variable_iff cspABbase (neq "A" "B")).2 h⟩

theorem addConstraintLoop_fst_constraints [DecidableEq V] (c : Constraint V D)
    (vs : List V) : ∀ csp : CSP V D,
    (addConstraintLoop c vs csp).1.constraints =
      registerAll c (vs.takeWhile fun v => decide (v ∈ csp.vars))
        csp.constraints := by
  induction vs with
  | nil => intro csp; simp [addConstraintLoop, registerAll]
  | cons v vs ih =>
      intro csp
      by_cases h : v ∈ csp.vars
      · simp only [addConstraintLoop, h, if_pos, List.takeWhile_cons,
          decide_eq_true h, registerAll]
        exact ih _
      · simp [addConstraintLoop, h, List.takeWhile_cons, registerAll]

theorem addConstraintLoop_fst_domains [DecidableEq V] (c : Constraint V D)
    (vs : List V) : ∀ csp : CSP V D,
    (addConstraintLoop c vs csp).1.domains = csp.domains := by
  induction vs with
  | nil => intro csp; rfl
  | cons v vs ih =>
      intro csp
      by_cases h : v ∈ csp.vars <;> simp [addConstraintLoop, h, ih]

/-- C7 amended: a failed registration is not atomic.  Unconditionally, the
CSP state after `add_constraint` (whether it raised or not) has the
constraint appended, in order, to the constraint list of each referenced
variable occurrence that precedes the first unknown referenced variable —
and nothing else changed (variable list and domains are untouched).  When
`UnknownVariableError` is raised, the variables before the first unknown one
therefore keep the partially registered constraint. -/
theorem c7_amended_registration_stops_at_first_unknown [DecidableEq V]
    (csp : CSP V D) (c : Constraint V D) :
    (csp.addConstraint c).1.constraints =
      registerAll c (c.vars.takeWhile fun v => decide (v ∈ csp.vars))
        csp.constraints ∧
    (csp.addConstraint c).1.vars = csp.vars ∧
    (csp.addConstraint c).1.domains = csp.domains :=
  ⟨addConstraintLoop_fst_constraints c c.vars csp,
   addConstraintLoop_fst_vars c c.vars csp,
   addConstraintLoop_fst_domains c c.vars csp⟩

/-! ### C8: determinism of the search -/

/-- C8: the search is deterministic — two invocations on the same CSP with
equal initial assignments, equal initial unassigned-domain snapshots and
equal strategy configurations produce equal solution sequences (same
solutions, same order).  The source consults no input besides these (the
progress counters are write-only for the solving logic). -/
theorem c8_search_deterministic [DecidableEq V] (csp : CSP V D)
    (a1 a2 : Assignment V D) (u1 u2 : UDoms V D) (cfg1 cfg2 : Config)
    (ha : a1 = a2) (hu : u1 = u2) (hcfg : cfg1 = cfg2) :
    csp.search a1 u1 cfg1 = csp.search a2 u2 cfg2 := by
  subst ha; subst hu; subst hcfg; rfl

/-- Witness for C8 on the spec's satisfiable example: the run is equal to
itself and concretely emits the two solutions `{A:1, B:2}` and `{A:2, B:1}`
in that order. -/
theorem c8_search_deterministic_witness :
    ([] : Assignment String Nat) = [] ∧ cspAB2.domains = cspAB2.domains ∧
      defaultConfig = defaultConfig ∧
    cspAB2.search [] cspAB2.domains defaultConfig =
      cspAB2.search [] cspAB2.domains defaultConfig ∧
    cspAB2.search [] cspAB2.domains defaultConfig =
      [[("A", 1), ("B", 2)], [("A", 2), ("B", 1)]] :=
  ⟨rfl, rfl, rfl,
   c8_search_deterministic cspAB2 [] [] cspAB2.domains cspAB2.domains
     defaultConfig defaultConfig rfl rfl rfl, rfl⟩

/-! ### Unfolding equations for the search -/

theorem searchAux_none [DecidableEq V] (csp : CSP V D) (cfg : Config)
    (fuel : Nat) (asg : Assignment V D) :
    searchAux csp cfg fuel asg none = [asg] := by
  cases fuel <;> rfl

theorem searchAux_some_nil [DecidableEq V] (csp : CSP V D) (cfg : Config)
    (fuel : Nat) (asg : Assignment V D) :
    searchAux csp cfg fuel asg (some []) = [asg] := by
  cases fuel <;> rfl

theorem searchAux_succ_cons [DecidableEq V] (csp : CSP V D) (cfg : Config)
    (fuel : Nat) (asg : Assignment V D) (hd : V × List D) (tl : UDoms V D)
    (nv : V) (dom : List D) (rest : UDoms V D)
    (hsel : select_next_var cfg.searchStrategy cfg.orderDomain hd tl
      = ((nv, dom), rest)) :
    searchAux csp cfg (fuel + 1) asg (some (hd :: tl)) =
      (dom.map fun value =>
        if (truthy (nextUnassigned csp cfg nv value rest)
              && !cfg.checkConstraints)
            || csp.consistent nv (dictSet asg nv value) then
          searchAux csp cfg fuel (dictSet asg nv value)
            (nextUnassigned csp cfg nv value rest)
        else []).flatten := by
  conv_lhs => rw [searchAux]
  rw [hsel]

/-! ### C4: consistency of emitted solutions -/

theorem searchAux_consistent [DecidableEq V] (csp : CSP V D) (cfg : Config)
    (hcheck : cfg.checkConstraints = true)
    (hreg : ∀ v w c, c ∈ (alookup csp.constraints v).getD [] → w ∈ c.vars →
      c ∈ (alookup csp.constraints w).getD [])
    (hdep : ∀ v c, c ∈ (alookup csp.constraints v).getD [] →
      ∀ a1 a2 : Assignment V D,
        (∀ x ∈ c.vars, alookup a1 x = alookup a2 x) →
        c.satisfied a1 = c.satisfied a2) :
    ∀ (fuel : Nat) (asg : Assignment V D) (u : Option (UDoms V D)),
      (∀ v, csp.consistent v asg = true) →
      ∀ sol ∈ searchAux csp cfg fuel asg u, ∀ v, csp.consistent v sol = true := by
  intro fuel
  induction fuel with
  | zero =>
      intro asg u hH sol hsol v
      match u with
      | none =>
          rw [searchAux_none, List.mem_singleton] at hsol
          exact hsol ▸ hH v
      | some [] =>
          rw [searchAux_some_nil, List.mem_singleton] at hsol
          exact hsol ▸ hH v
      | some (hd :: tl) =>
          simp [searchAux] at hsol
  | succ fuel ih =>
      intro asg u hH sol hsol v
      match u with
      | none =>
          rw [searchAux_none, List.mem_singleton] at hsol
          exact hsol ▸ hH v
      | some [] =>
          rw [searchAux_some_nil, List.mem_singleton] at hsol
          exact hsol ▸ hH v
      | some (hd :: tl) =>
          rcases hsel : select_next_var cfg.searchStrategy cfg.orderDomain hd tl
            with ⟨⟨nv, dom⟩, rest⟩
          rw [searchAux_succ_cons csp cfg fuel asg hd tl nv dom rest hsel,
            List.mem_flatten] at hsol
          obtain ⟨l, hl, hsoll⟩ := hsol
          rw [List.mem_map] at hl
          obtain ⟨value, hvdom, hval⟩ := hl
          subst hval
          split at hsoll
          case isTrue hcond =>
            rw [hcheck] at hcond
            simp only [Bool.not_true, Bool.and_false, Bool.false_or] at hcond
            have hH' : ∀ w, csp.consistent w (dictSet asg nv value) = true := by
              intro w
              simp only [CSP.consistent, List.all_eq_true]
              intro c hc
              by_cases hnv : nv ∈ c.vars
              · have hcnv := hreg w nv c hc hnv
                simp only [CSP.consistent, List.all_eq_true] at hcond
                exact hcond c hcnv
              · have heq := hdep w c hc (dictSet asg nv value) asg ?_
                · rw [heq]
                  have := hH w
                  simp only [CSP.consistent, List.all_eq_true] at this
                  exact this c hc
                · intro x hx
                  exact alookup_dictSet_ne asg value
                    (fun hxeq => hnv (hxeq ▸ hx))
            exact ih (dictSet asg nv value)
              (nextUnassigned csp cfg nv value rest) hH' sol hsoll v
          case isFalse hcond =>
            simp at hsoll

/-- C4 amended: when `check_constraints` is enabled, every solution emitted
by a search started from an assignment on which `is_consistent` already holds
for every variable (in particular the empty assignment) again satisfies
`is_consistent` for every variable — under the §4.3 contract hypotheses that
each registered constraint is registered under all the variables it
references and that its `satisfied` predicate depends only on the values of
the variables it references.  (Without `check_constraints` the property fails
on the code: see the counterexample.) -/
theorem c4_amended_check_constraints_consistent [DecidableEq V]
    (csp : CSP V D) (cfg : Config)
    (hcheck : cfg.checkConstraints = true)
    (hreg : ∀ v w c, c ∈ (alookup csp.constraints v).getD [] → w ∈ c.vars →
      c ∈ (alookup csp.constraints w).getD [])
    (hdep : ∀ v c, c ∈ (alookup csp.constraints v).getD [] →
      ∀ a1 a2 : Assignment V D,
        (∀ x ∈ c.vars, alookup a1 x = alookup a2 x) →
        c.satisfied a1 = c.satisfied a2)
    (asg : Assignment V D) (u : UDoms V D)
    (hH : ∀ v, csp.consistent v asg = true) :
    ∀ sol ∈ csp.search asg u cfg, ∀ v, csp.consistent v sol = true :=
  searchAux_consistent csp cfg hcheck hreg hdep u.length asg (some u) hH

/-- Witness for the amended C4, on the `{A, B}` CSP with the registered
constraint `A ≠ B` and `check_constraints` enabled. -/
theorem c4_amended_check_constraints_consistent_witness :
    ((⟨.ff, true, true, true⟩ : Config).checkConstraints = true) ∧
    (∀ v, cspAB.consistent v [] = true) ∧
    ∀ sol ∈ cspAB.search [] cspAB.domains ⟨.ff, true, true, true⟩,
      ∀ v, cspAB.consistent v sol = true := by
  have hcs : cspAB.constraints
      = [("A", [neq "A" "B"]), ("B", [neq "A" "B"])] := rfl
  have hlA : (alookup cspAB.constraints "A").getD [] = [neq "A" "B"] := rfl
  have hlB : (alookup cspAB.constraints "B").getD [] = [neq "A" "B"] := rfl
  have honly : ∀ v c, c ∈ (alookup cspAB.constraints v).getD [] →
      c = neq "A" "B" := by
    intro v c hc
    by_cases h1 : v = "A"
    · subst h1; rw [hlA, List.mem_singleton] at hc; exact hc
    · by_cases h2 : v = "B"
      · subst h2; rw [hlB, List.mem_singleton] at hc; exact hc
      · rw [hcs] at hc
        simp [alookup, h1, h2] at hc
  have hvars : (neq (D := Nat) "A" "B").vars = ["A", "B"] := rfl
  have hreg : ∀ v w c, c ∈ (alookup cspAB.constraints v).getD [] →
      w ∈ c.vars → c ∈ (alookup cspAB.constraints w).getD [] := by
    intro v w c hc hw
    have hc' := honly v c hc
    subst hc'
    rw [hvars] at hw
    have hw' : w = "A" ∨ w = "B" := by simpa using hw
    rcases hw' with h | h
    · subst h; rw [hlA]; exact List.mem_singleton_self _
    · subst h; rw [hlB]; exact List.mem_singleton_self _
  have hdep : ∀ v c, c ∈ (alookup cspAB.constraints v).getD [] →
      ∀ a1 a2 : Assignment String Nat,
        (∀ x ∈ c.vars, alookup a1 x = alookup a2 x) →
        c.satisfied a1 = c.satisfied a2 := by
    intro v c hc a1 a2 hx
    have hc' := honly v c hc
    subst hc'
    have hA := hx "A" (by rw [hvars]; exact List.mem_cons_self _ _)
    have hB := hx "B" (by rw [hvars]; exact List.mem_cons_of_mem _ (List.mem_singleton_self _))
    simp only [neq]
    rw [hA, hB]
  have hH : ∀ v, cspAB.consistent v [] = true := by
    intro v
    by_cases h1 : v = "A"
    · subst h1; rfl
    · by_cases h2 : v = "B"
      · subst h2; rfl
      · simp [CSP.consistent, hcs, alookup, h1, h2]
  exact ⟨rfl, hH,
    c4_amended_check_constraints_consistent cspAB ⟨.ff, true, true, true⟩ rfl
      hreg hdep [] cspAB.domains hH⟩

/-! ### C9: the recursion depth bound -/

theorem propagChain_start_none (cs : List (Constraint V D)) (nv : V) (d : D) :
    cs.foldl (fun acc c => acc.bind fun m => c.propagate nv d m) none = none := by
  induction cs with
  | nil => rfl
  | cons c cs ih => exact ih

theorem propagChain_cons (c : Constraint V D) (cs : List (Constraint V D))
    (nv : V) (d : D) (u : UDoms V D) :
    propagChain (c :: cs) nv d u =
      match c.propagate nv d u with
      | none => none
      | some u1 => propagChain cs nv d u1 := by
  unfold propagChain
  rw [List.foldl_cons]
  have hb : (Option.bind (some u) fun m => c.propagate nv d m)
      = c.propagate nv d u := rfl
  rw [hb]
  cases hp0 : c.propagate nv d u with
  | none => exact propagChain_start_none cs nv d
  | some u1 => rfl

theorem propagChain_length (cs : List (Constraint V D)) (nv : V) (d : D)
    (hp : ∀ c ∈ cs, ∀ w e u u', c.propagate w e u = some u' →
      u'.length ≤ u.length) :
    ∀ u u', propagChain cs nv d u = some u' → u'.length ≤ u.length := by
  induction cs with
  | nil =>
      intro u u' h
      simp only [propagChain, List.foldl_nil, Option.some.injEq] at h
      exact h ▸ Nat.le_refl _
  | cons c cs ih =>
      intro u u' h
      rw [propagChain_cons] at h
      cases hp0 : c.propagate nv d u with
      | none => rw [hp0] at h; exact absurd h (by simp)
      | some u1 =>
          rw [hp0] at h
          have h1 := hp c (List.mem_cons_self c cs) nv d u u1 hp0
          have h2 := ih (fun x hx => hp x (List.mem_cons_of_mem c hx)) u1 u' h
          exact Nat.le_trans h2 h1

theorem nextUnassigned_uLen [DecidableEq V] (csp : CSP V D) (cfg : Config)
    (nv : V) (value : D) (rest : UDoms V D)
    (hp : ∀ v c, c ∈ (alookup csp.constraints v).getD [] →
      ∀ w e u u', c.propagate w e u = some u' → u'.length ≤ u.length) :
    uLen (nextUnassigned csp cfg nv value rest) ≤ rest.length := by
  unfold nextUnassigned
  split
  · cases hch : propagChain ((alookup csp.constraints nv).getD []) nv value rest with
    | none => simp [uLen]
    | some u' =>
        simpa [uLen] using
          propagChain_length _ nv value (fun c hc => hp nv c hc) rest u' hch
  · exact Nat.le_refl _

theorem ffFold_mem (hd : V × List D) (tl : UDoms V D) :
    tl.foldl (fun b p => if p.2.length < b.2.length then p else b) hd ∈ hd :: tl := by
  induction tl generalizing hd with
  | nil => exact List.mem_singleton_self _
  | cons p tl ih =>
      rw [List.foldl_cons]
      rcases List.mem_cons.mp (ih (if p.2.length < hd.2.length then p else hd))
        with h | h
      · rw [h]
        split
        · exact List.mem_cons_of_mem _ (List.mem_cons_self _ _)
        · exact List.mem_cons_self _ _
      · exact List.mem_cons_of_mem _ (List.mem_cons_of_mem _ h)

theorem alookup_isSome_of_mem [DecidableEq V] {α : Type} (l : List (V × α))
    (p : V × α) (h : p ∈ l) : (alookup l p.1).isSome = true := by
  induction l with
  | nil => simp at h
  | cons q l ih =>
      obtain ⟨k, a⟩ := q
      by_cases hq : p.1 = k
      · simp [alookup, hq]
      · simp only [alookup, if_neg hq]
        rcases List.mem_cons.mp h with h' | h'
        · exact absurd (congrArg Prod.fst h') hq
        · exact ih h'

theorem removeKey_length [DecidableEq V] {α : Type} (l : List (V × α)) (k : V)
    (h : (alookup l k).isSome = true) :
    (removeKey l k).length + 1 = l.length := by
  induction l with
  | nil => simp [alookup] at h
  | cons q l ih =>
      obtain ⟨k', a⟩ := q
      by_cases hk : k' = k
      · simp [removeKey, hk]
      · have hk2 : ¬ k = k' := fun he => hk he.symm
        simp only [alookup, if_neg hk2] at h
        simp only [removeKey, if_neg hk, List.length_cons]
        rw [ih h]

theorem select_next_var_rest_length [DecidableEq V] (st : SearchStrategy)
    (od : Bool) (hd : V × List D) (tl : UDoms V D) :
    (select_next_var st od hd tl).2.length = tl.length := by
  cases st with
  | natural => rfl
  | ff =>
      show (removeKey (hd :: tl)
        (tl.foldl (fun b p => if p.2.length < b.2.length then p else b) hd).1).length
        = tl.length
      have hsome := alookup_isSome_of_mem (hd :: tl) _ (ffFold_mem hd tl)
      have := removeKey_length (hd :: tl) _ hsome
      simp only [List.length_cons] at this
      omega

theorem searchAux_fuel_add [DecidableEq V] (csp : CSP V D) (cfg : Config)
    (hp : ∀ v c, c ∈ (alookup csp.constraints v).getD [] →
      ∀ w e u u', c.propagate w e u = some u' → u'.length ≤ u.length) :
    ∀ (fuel extra : Nat) (u : Option (UDoms V D)) (asg : Assignment V D),
      uLen u ≤ fuel →
      searchAux csp cfg (fuel + extra) asg u = searchAux csp cfg fuel asg u := by
  intro fuel
  induction fuel with
  | zero =>
      intro extra u asg hle
      match u with
      | none => rw [searchAux_none, searchAux_none]
      | some [] => rw [searchAux_some_nil, searchAux_some_nil]
      | some (hd :: tl) => simp [uLen] at hle
  | succ f ih =>
      intro extra u asg hle
      match u with
      | none => rw [searchAux_none, searchAux_none]
      | some [] => rw [searchAux_some_nil, searchAux_some_nil]
      | some (hd :: tl) =>
          have hle' : tl.length + 1 ≤ f + 1 := hle
          rcases hsel : select_next_var cfg.searchStrategy cfg.orderDomain hd tl
            with ⟨⟨nv, dom⟩, rest⟩
          have hrest : rest.length = tl.length := by
            have hl := select_next_var_rest_length cfg.searchStrategy
              cfg.orderDomain hd tl
            rw [hsel] at hl
            exact hl
          have hadd : f + 1 + extra = (f + extra) + 1 := by omega
          rw [hadd,
            searchAux_succ_cons csp cfg (f + extra) asg hd tl nv dom rest hsel,
            searchAux_succ_cons csp cfg f asg hd tl nv dom rest hsel]
          congr 1
          apply List.map_congr_left
          intro value hv
          by_cases hcond : ((truthy (nextUnassigned csp cfg nv value rest)
              && !cfg.checkConstraints)
              || csp.consistent nv (dictSet asg nv value)) = true
          · rw [if_pos hcond, if_pos hcond]
            have hnu : uLen (nextUnassigned csp cfg nv value rest) ≤ f := by
              have h1 := nextUnassigned_uLen csp cfg nv value rest hp
              omega
            exact ih extra _ _ hnu
          · rw [if_neg hcond, if_neg hcond]

/-- C9: the recursion depth of the search is bounded by the number of
unassigned variables (at most the number of variables): any fuel at least
the number of unassigned variables computes exactly what `CSP.search` (fuel
= number of unassigned variables) computes — under the §4.2/§4.3
preconditions, built into `select_next_var` (the selected variable is
removed from the recursive call's snapshot) and hypothesised for `propagate`
(pruning never grows the snapshot). -/
theorem c9_fuel_number_of_variables_suffices [DecidableEq V] (csp : CSP V D)
    (cfg : Config)
    (hp : ∀ v c, c ∈ (alookup csp.constraints v).getD [] →
      ∀ w e u u', c.propagate w e u = some u' → u'.length ≤ u.length)
    (fuel : Nat) (u : UDoms V D) (asg : Assignment V D)
    (hle : u.length ≤ fuel) :
    searchAux csp cfg fuel asg (some u) = csp.search asg u cfg := by
  unfold CSP.search
  have hf : fuel = u.length + (fuel - u.length) := by omega
  rw [hf, searchAux_fuel_add csp cfg hp u.length (fuel - u.length) (some u) asg
    (Nat.le_refl _)]

/-- A constraint-free CSP, a trivial instance for the C9 witness. -/
def cspNoCons : CSP String Nat := ⟨["A"], [("A", [1])], []⟩

/-- Witness for C9: on a one-variable CSP, any surplus fuel computes the
same solution list as fuel 1. -/
theorem c9_fuel_number_of_variables_suffices_witness :
    (∀ v c, c ∈ (alookup cspNoCons.constraints v).getD [] →
      ∀ (w : String) (e : Nat) u u', c.propagate w e u = some u' →
        u'.length ≤ u.length) ∧
    ([("A", [1])] : UDoms String Nat).length ≤ 5 ∧
    searchAux cspNoCons defaultConfig 5 [] (some [("A", [1])])
      = cspNoCons.search [] [("A", [1])] defaultConfig ∧
    cspNoCons.search [] [("A", [1])] defaultConfig = [[("A", 1)]] := by
  have hp : ∀ v c, c ∈ (alookup cspNoCons.constraints v).getD [] →
      ∀ (w : String) (e : Nat) u u', c.propagate w e u = some u' →
        u'.length ≤ u.length := by
    intro v c hc
    simp [cspNoCons, alookup] at hc
  exact ⟨hp, by decide,
    c9_fuel_number_of_variables_suffices cspNoCons defaultConfig hp 5
      [("A", [1])] [] (by decide), rfl⟩

end CspYield
